import Mathlib

/-!
Verification of the attribute-certificate table parser from
`authenticode/src/win_cert.rs`.

The Rust code is shallowly embedded: byte slices become `List Nat` (each
element a byte value), `usize` arithmetic becomes `Nat` with explicit
overflow checks against `2 ^ 64`, fallible operations return `Option`,
and `Result` becomes `Except`.  The iterator's `next` method becomes a
pure step function `nextStep : List Nat → Option item × List Nat`
returning the produced item (if any) together with the new cursor.
-/

namespace WinCert

/-- One past the maximum `usize` value (64-bit target): `checked_add`
returns `none` exactly when the mathematical sum reaches this bound. -/
def USIZE_BOUND : Nat := 2 ^ 64

/-- Constant `WIN_CERT_REVISION_2_0`: current version of the `Win_Certificate`
structure. -/
def WIN_CERT_REVISION_2_0 : Nat := 0x0200

/-- Constant `WIN_CERT_TYPE_PKCS_SIGNED_DATA`: certificate contains a PKCS#7
`SignedData` structure. -/
def WIN_CERT_TYPE_PKCS_SIGNED_DATA : Nat := 0x0002

/-- Rust `u16::from_le_bytes` on two byte values. -/
def u16_from_le (b0 b1 : Nat) : Nat := b0 + 256 * b1

/-- Rust `u32::from_le_bytes` on four byte values. -/
def u32_from_le (b0 b1 b2 b3 : Nat) : Nat :=
  b0 + 256 * b1 + 65536 * b2 + 16777216 * b3

/-- Function `align_up_to_8` from `win_cert.rs`: round `val` up to the next
multiple of 8; `none` models `checked_add` overflow past `usize::MAX`.
The source's `ALIGN.checked_sub(r).unwrap()` is `8 - r` here (the
remainder is always `< 8`); its reachability is settled separately by
`alignUpTo8Checked`. -/
def align_up_to_8 (val : Nat) : Option Nat :=
  let r := val % 8
  if r = 0 then
    some val
  else
    let sub := 8 - r
    if val + sub < USIZE_BOUND then some (val + sub) else none

/-- Rust slice `get(s..e)`: `some` of the sub-slice when
`s ≤ e ∧ e ≤ l.length`, otherwise `none`. -/
def sliceGet (l : List Nat) (s e : Nat) : Option (List Nat) :=
  if s ≤ e ∧ e ≤ l.length then some ((l.drop s).take (e - s)) else none

/-- Rust slice `get(s..)`: `some` of the suffix when `s ≤ l.length`,
otherwise `none`. -/
def sliceFrom (l : List Nat) (s : Nat) : Option (List Nat) :=
  if s ≤ l.length then some (l.drop s) else none

/-- Type `AttributeCertificateError` from `win_cert.rs`. -/
inductive AttributeCertificateError where
  /-- The certificate table's range is out of bounds. -/
  | OutOfBounds
  /-- The certificate table's size does not match the sum of the
  certificate entry's aligned sizes. -/
  | InvalidSize
  /-- The size of an entry in the certificate table is invalid. -/
  | InvalidCertificateSize (size : Nat)
deriving DecidableEq, Repr

/-- Type `AttributeCertificate` from `win_cert.rs`: raw data for a PE
attribute certificate (the borrowed payload slice becomes a list). -/
structure AttributeCertificate where
  revision : Nat
  certificate_type : Nat
  data : List Nat
deriving DecidableEq, Repr

/-- An item produced by the iterator: `Result<AttributeCertificate,
AttributeCertificateError>`. -/
abbrev CertItem := Except AttributeCertificateError AttributeCertificate

/-- One call of `AttributeCertificateIterator::next`
(`win_cert.rs:188-251`).  Input: the `remaining_data` cursor.  Output:
the produced item (`none` = iteration produced nothing) and the cursor
after the call.  The first pattern is the `remaining_data.len() <
header_size` guard; the `?`-propagation on `align_up_to_8` and
`get(size_rounded_up..)` returns `none` with the cursor untouched. -/
def nextStep : List Nat → Option CertItem × List Nat
  | a0 :: a1 :: a2 :: a3 :: b0 :: b1 :: c0 :: c1 :: rest =>
    let cert_bytes := a0 :: a1 :: a2 :: a3 :: b0 :: b1 :: c0 :: c1 :: rest
    let cert_size := u32_from_le a0 a1 a2 a3
    let cert_size_err :=
      AttributeCertificateError.InvalidCertificateSize cert_size
    let revision := u16_from_le b0 b1
    let certificate_type := u16_from_le c0 c1
    -- cert_size.checked_sub(header_size)
    if cert_size < 8 then
      (some (.error cert_size_err), [])
    else
      let cert_data_size := cert_size - 8
      -- header_size.checked_add(cert_data_size)
      if USIZE_BOUND ≤ 8 + cert_data_size then
        (some (.error cert_size_err), [])
      else
        let cert_data_end := 8 + cert_data_size
        -- cert_bytes.get(header_size..cert_data_end)
        match sliceGet cert_bytes 8 cert_data_end with
        | none => (some (.error cert_size_err), [])
        | some cert_data =>
          -- align_up_to_8(cert_size)?
          match align_up_to_8 cert_size with
          | none => (none, cert_bytes)
          | some size_rounded_up =>
            -- cert_bytes.get(size_rounded_up..)?
            match sliceFrom cert_bytes size_rounded_up with
            | none => (none, cert_bytes)
            | some remaining =>
              (some (.ok ⟨revision, certificate_type, cert_data⟩),
                remaining)
  | rd => (none, rd)

/-- Fuel-indexed driver: call `nextStep` until it produces nothing,
collecting the items and the final cursor.  Each producing step
strictly shrinks the cursor, so `fuel = rd.length` always suffices
(`runIterFuel_stable`). -/
def runIterFuel : Nat → List Nat → List CertItem × List Nat
  | 0, rd => ([], rd)
  | fuel + 1, rd =>
    match nextStep rd with
    | (none, rdFinal) => ([], rdFinal)
    | (some item, rd') =>
      let p := runIterFuel fuel rd'
      (item :: p.1, p.2)

/-- Run the iterator to exhaustion: the produced items and the final
`remaining_data`. -/
def runIter (rd : List Nat) : List CertItem × List Nat :=
  runIterFuel rd.length rd

/-- The sequence of items the iterator hands out for cursor `rd`. -/
def runIterItems (rd : List Nat) : List CertItem := (runIter rd).1

/-- Function `check_total_size_valid` (`win_cert.rs:32-36`): run the iterator to
exhaustion and test whether `remaining_data` ends up empty. -/
def check_total_size_valid (rd : List Nat) : Bool :=
  (runIter rd).2.isEmpty

/-- The PE image abstraction (`PeTrait`) as the iterator constructor
consumes it: the image bytes and the result of
`certificate_table_range()` (a `Range<usize>` is a start/end pair). -/
structure PeImage where
  data : List Nat
  certificate_table_range : Except Unit (Option (Nat × Nat))

/-- Constructor `AttributeCertificateIterator::new` (`win_cert.rs:163-182`): resolve
the certificate table range against the image, validate the total size
eagerly, and return the iterator state (the table bytes), `none` when
there is no table. -/
def AttributeCertificateIterator.new (pe : PeImage) :
    Except AttributeCertificateError (Option (List Nat)) :=
  match pe.certificate_table_range with
  | .ok (some range) =>
    match sliceGet pe.data range.1 range.2 with
    | none => .error .OutOfBounds
    | some remaining_data =>
      if check_total_size_valid remaining_data then
        .ok (some remaining_data)
      else
        .error .InvalidSize
  | .ok none => .ok none
  | .error _ => .error .OutOfBounds

/-- Type `AttributeCertificateAuthenticodeError` from `win_cert.rs`,
parametric in the external parser's error type. -/
inductive AttributeCertificateAuthenticodeError (ε : Type) where
  /-- Attribute certificate revision does not match
  `WIN_CERT_REVISION_2_0`. -/
  | InvalidCertificateRevision (rev : Nat)
  /-- Attribute certificate type does not match
  `WIN_CERT_TYPE_PKCS_SIGNED_DATA`. -/
  | InvalidCertificateType (ctype : Nat)
  /-- Attribute certificate data is not a valid signature. -/
  | InvalidSignature (err : ε)
deriving DecidableEq, Repr

/-- Method `AttributeCertificate::get_authenticode_signature`
(`win_cert.rs:124-141`), parametric in the external
`AuthenticodeSignature::from_bytes` parser. -/
def AttributeCertificate.get_authenticode_signature {ε σ : Type}
    (from_bytes : List Nat → Except ε σ) (c : AttributeCertificate) :
    Except (AttributeCertificateAuthenticodeError ε) σ :=
  if c.revision ≠ WIN_CERT_REVISION_2_0 then
    .error (.InvalidCertificateRevision c.revision)
  else if c.certificate_type ≠ WIN_CERT_TYPE_PKCS_SIGNED_DATA then
    .error (.InvalidCertificateType c.certificate_type)
  else
    (from_bytes c.data).mapError .InvalidSignature

/-- Modelled from the spec: little-endian encoding of a `u16` header
field (wire format, spec section 6); the repository contains no encoder,
only the decoder. -/
def u16_to_le (n : Nat) : List Nat := [n % 256, n / 256 % 256]

/-- Modelled from the spec: little-endian encoding of a `u32` header
field (wire format, spec section 6); the repository contains no encoder,
only the decoder. -/
def u32_to_le (n : Nat) : List Nat :=
  [n % 256, n / 256 % 256, n / 65536 % 256, n / 16777216 % 256]

/-- Modelled from the spec: one entry to be encoded per the
`WIN_CERTIFICATE` wire format — revision, certificate type, payload
bytes, and the 0-7 padding bytes that bring the next entry to an 8-byte
boundary. -/
structure WireEntry where
  revision : Nat
  certificate_type : Nat
  payload : List Nat
  padding : List Nat
deriving DecidableEq, Repr

/-- The encodability constraints on one wire entry: revision and type
fit in a `u16`, the total size `8 + payload length` fits in the `u32`
size field, and the padding has exactly the length that brings
`8 + payload length` to the next multiple of 8. -/
def WireEntry.WellFormed (e : WireEntry) : Prop :=
  e.revision < 65536 ∧ e.certificate_type < 65536 ∧
    8 + e.payload.length < 4294967296 ∧
    e.padding.length = (8 - (8 + e.payload.length) % 8) % 8

instance (e : WireEntry) : Decidable e.WellFormed := by
  unfold WireEntry.WellFormed
  infer_instance

/-- Modelled from the spec: encode one entry per the wire format —
4-byte little-endian size (`8 +` payload length), 2-byte little-endian
revision, 2-byte little-endian type, payload, then padding. -/
def encodeEntry (e : WireEntry) : List Nat :=
  u32_to_le (8 + e.payload.length) ++ u16_to_le e.revision ++
    u16_to_le e.certificate_type ++ e.payload ++ e.padding

/-- Modelled from the spec: a table is the concatenation of its encoded
entries. -/
def encodeTable : List WireEntry → List Nat
  | [] => []
  | e :: es => encodeEntry e ++ encodeTable es

/-- Rust `[u8; 4]::try_into` plus `u32::from_le_bytes`: succeeds exactly on a
4-byte slice (`none` models the `try_into().unwrap()` panic). -/
def tryIntoU32 : List Nat → Option Nat
  | [b0, b1, b2, b3] => some (u32_from_le b0 b1 b2 b3)
  | _ => none

/-- Rust `[u8; 2]::try_into` plus `u16::from_le_bytes`: succeeds exactly on a
2-byte slice (`none` models the `try_into().unwrap()` panic). -/
def tryIntoU16 : List Nat → Option Nat
  | [b0, b1] => some (u16_from_le b0 b1)
  | _ => none

/-- Function `align_up_to_8` with its internal `unwrap` made explicit: the outer
`none` models a panic of `ALIGN.checked_sub(r).unwrap()` (reachable only
if the remainder exceeded 8), the inner `Option` is the function's
return value. -/
def alignUpTo8Checked (val : Nat) : Option (Option Nat) :=
  let r := val % 8
  if r = 0 then
    some (some val)
  else
    if 8 < r then
      none
    else
      let sub := 8 - r
      some (if val + sub < USIZE_BOUND then some (val + sub) else none)

/-- Method `AttributeCertificateIterator::next` with every panic source made
explicit: the outer `none` models a panic (slice indexing
`cert_bytes[0..4]`, `[4..6]`, `[6..8]`, a failed `try_into().unwrap()`,
or the `unwrap` inside `align_up_to_8`); `some` carries the call's
result exactly as in `nextStep`.  `nextStepChecked_eq` proves the panic
paths unreachable for every input. -/
def nextStepChecked (rd : List Nat) :
    Option (Option CertItem × List Nat) :=
  if rd.length < 8 then
    some (none, rd)
  else
    match sliceGet rd 0 4, sliceGet rd 4 6, sliceGet rd 6 8 with
    | some sz, some rv, some ty =>
      match tryIntoU32 sz, tryIntoU16 rv, tryIntoU16 ty with
      | some cert_size, some revision, some certificate_type =>
        if cert_size < 8 then
          some (some (.error (.InvalidCertificateSize cert_size)), [])
        else if USIZE_BOUND ≤ 8 + (cert_size - 8) then
          some (some (.error (.InvalidCertificateSize cert_size)), [])
        else
          match sliceGet rd 8 (8 + (cert_size - 8)) with
          | none =>
            some (some (.error (.InvalidCertificateSize cert_size)), [])
          | some cert_data =>
            match alignUpTo8Checked cert_size with
            | none => none
            | some none => some (none, rd)
            | some (some size_rounded_up) =>
              match sliceFrom rd size_rounded_up with
              | none => some (none, rd)
              | some remaining =>
                some (some (.ok
                  ⟨revision, certificate_type, cert_data⟩), remaining)
      | _, _, _ => none
    | _, _, _ => none

/-- A simple stand-in for the external `AuthenticodeSignature::from_bytes`
parser, used to instantiate `get_authenticode_signature` at concrete
inputs: rejects the empty payload, accepts anything else. -/
def stubParse (d : List Nat) : Except Unit (List Nat) :=
  if d = [] then .error () else .ok d

/-! ### Helper lemmas about `align_up_to_8` -/

theorem align_up_to_8_le {v w : Nat} (h : align_up_to_8 v = some w) :
    v ≤ w := by
  simp only [align_up_to_8] at h
  split at h
  · cases h; exact Nat.le_refl v
  · split at h
    · cases h; omega
    · cases h

theorem align_up_to_8_mod {v w : Nat} (h : align_up_to_8 v = some w) :
    w % 8 = 0 := by
  simp only [align_up_to_8] at h
  split at h
  · cases h; omega
  · split at h
    · cases h; omega
    · cases h

theorem align_up_to_8_eq_pad (v : Nat)
    (h : v + (8 - v % 8) % 8 < USIZE_BOUND) :
    align_up_to_8 v = some (v + (8 - v % 8) % 8) := by
  simp only [align_up_to_8, USIZE_BOUND] at *
  split
  · simp; omega
  · split
    · simp; omega
    · omega

/-! ### Case lemmas about a single iterator step -/

theorem nextStep_of_length_lt {rd : List Nat} (h : rd.length < 8) :
    nextStep rd = (none, rd) := by
  rcases rd with _ | ⟨a0, _ | ⟨a1, _ | ⟨a2, _ | ⟨a3, _ | ⟨b0, _ | ⟨b1,
    _ | ⟨c0, _ | ⟨c1, rest⟩⟩⟩⟩⟩⟩⟩⟩
  any_goals rfl
  simp only [List.length_cons] at h
  omega

theorem nextStep_classify (rd : List Nat) :
    ((nextStep rd).1 = none ∧ (nextStep rd).2 = rd) ∨
    (∃ e, (nextStep rd).1 = some (.error e) ∧ (nextStep rd).2 = []) ∨
    (∃ c w, 8 ≤ w ∧ w ≤ rd.length ∧
      (nextStep rd).1 = some (.ok c) ∧ (nextStep rd).2 = rd.drop w) := by
  by_cases hlen : rd.length < 8
  · rw [nextStep_of_length_lt hlen]
    exact Or.inl ⟨rfl, rfl⟩
  · rcases rd with _ | ⟨a0, _ | ⟨a1, _ | ⟨a2, _ | ⟨a3, _ | ⟨b0, _ | ⟨b1,
      _ | ⟨c0, _ | ⟨c1, rest⟩⟩⟩⟩⟩⟩⟩⟩
    any_goals (simp at hlen; done)
    clear hlen
    simp only [nextStep]
    repeat' split
    · exact Or.inr (Or.inl ⟨_, rfl, rfl⟩)
    · exact Or.inr (Or.inl ⟨_, rfl, rfl⟩)
    · exact Or.inr (Or.inl ⟨_, rfl, rfl⟩)
    · exact Or.inl ⟨rfl, rfl⟩
    · exact Or.inl ⟨rfl, rfl⟩
    · rename_i hsize hover x3 cd hsg x2 w hal x1 rem hsf
      refine Or.inr (Or.inr ⟨_, w, ?_, ?_, rfl, ?_⟩)
      · have hle := align_up_to_8_le hal
        omega
      · simp only [sliceFrom] at hsf
        split at hsf
        · rename_i hwle
          exact hwle
        · cases hsf
      · simp only [sliceFrom] at hsf
        split at hsf
        · injection hsf with h2
          subst h2
          rfl
        · cases hsf

theorem nextStep_none_snd {rd : List Nat} (h : (nextStep rd).1 = none) :
    (nextStep rd).2 = rd := by
  rcases nextStep_classify rd with ⟨_, h2⟩ | ⟨e, h1, _⟩ | ⟨c, w, _, _, h1, _⟩
  · exact h2
  · rw [h] at h1
    cases h1
  · rw [h] at h1
    cases h1

theorem nextStep_error_clears {rd rd' : List Nat}
    {e : AttributeCertificateError}
    (h : nextStep rd = (some (.error e), rd')) : rd' = [] := by
  have h1 : (nextStep rd).1 = some (.error e) := by rw [h]
  have h2 : (nextStep rd).2 = rd' := by rw [h]
  rcases nextStep_classify rd with ⟨ha, _⟩ | ⟨e', _, hb⟩ | ⟨c, w, _, _, hc, _⟩
  · rw [ha] at h1
    cases h1
  · rw [hb] at h2
    exact h2.symm
  · rw [hc] at h1
    simp at h1

theorem nextStep_ok_shrinks {rd rd' : List Nat} {c : AttributeCertificate}
    (h : nextStep rd = (some (.ok c), rd')) :
    rd'.length + 8 ≤ rd.length := by
  have h1 : (nextStep rd).1 = some (.ok c) := by rw [h]
  have h2 : (nextStep rd).2 = rd' := by rw [h]
  rcases nextStep_classify rd with ⟨ha, _⟩ | ⟨e', hb, _⟩ |
    ⟨c', w, hw8, hwle, hc, hd⟩
  · rw [ha] at h1
    cases h1
  · rw [hb] at h1
    simp at h1
  · rw [hd] at h2
    subst h2
    rw [List.length_drop]
    omega

theorem nextStep_some_lt {rd rd' : List Nat} {it : CertItem}
    (h : nextStep rd = (some it, rd')) : rd'.length < rd.length := by
  have hlen : ¬ rd.length < 8 := by
    intro hl
    rw [nextStep_of_length_lt hl] at h
    cases h
  cases it with
  | error e =>
    have hc := nextStep_error_clears h
    subst hc
    simp only [List.length_nil]
    omega
  | ok c =>
    have hc := nextStep_ok_shrinks h
    omega

/-! ### Running the iterator to exhaustion -/

theorem runIterFuel_stable (fuel : Nat) :
    ∀ rd : List Nat, rd.length ≤ fuel → runIterFuel fuel rd = runIter rd := by
  induction fuel using Nat.strong_induction_on with
  | _ fuel ih =>
    intro rd hle
    unfold runIter
    cases fuel with
    | zero =>
      have hz : rd = [] := List.length_eq_zero.mp (Nat.le_zero.mp hle)
      subst hz
      rfl
    | succ g =>
      cases hL : rd.length with
      | zero =>
        have hz : rd = [] := List.length_eq_zero.mp hL
        subst hz
        rfl
      | succ m =>
        simp only [runIterFuel]
        cases hstep : nextStep rd with
        | mk o rd2 =>
          cases o with
          | none => simp
          | some item =>
            have hlt : rd2.length < rd.length := nextStep_some_lt hstep
            have e1 : runIterFuel g rd2 = runIter rd2 :=
              ih g (by omega) rd2 (by omega)
            have e2 : runIterFuel m rd2 = runIter rd2 :=
              ih m (by omega) rd2 (by omega)
            simp [e1, e2]

theorem runIter_none {rd rdf : List Nat} (h : nextStep rd = (none, rdf)) :
    runIter rd = ([], rdf) := by
  have hrd : rdf = rd := by
    have hsnd := nextStep_none_snd (show (nextStep rd).1 = none by rw [h])
    rw [h] at hsnd
    exact hsnd
  rw [hrd]
  unfold runIter
  cases hL : rd.length with
  | zero => rfl
  | succ m =>
    simp only [runIterFuel]
    rw [h]
    simp [hrd]

theorem runIter_some {rd rd' : List Nat} {item : CertItem}
    (h : nextStep rd = (some item, rd')) :
    runIter rd = (item :: (runIter rd').1, (runIter rd').2) := by
  have hlt : rd'.length < rd.length := nextStep_some_lt h
  cases hL : rd.length with
  | zero => omega
  | succ m =>
    have hstep : runIter rd = runIterFuel (m + 1) rd := by
      unfold runIter
      rw [hL]
    rw [hstep]
    simp only [runIterFuel]
    rw [h]
    simp [runIterFuel_stable m rd' (by omega)]

theorem u32_to_le_round (n : Nat) (h : n < 4294967296) :
    u32_from_le (n % 256) (n / 256 % 256) (n / 65536 % 256)
      (n / 16777216 % 256) = n := by
  simp only [u32_from_le]
  omega

theorem u16_to_le_round (n : Nat) (h : n < 65536) :
    u16_from_le (n % 256) (n / 256 % 256) = n := by
  simp only [u16_from_le]
  omega

theorem drop_eight (x0 x1 x2 x3 x4 x5 x6 x7 : Nat) (t : List Nat) :
    List.drop 8 (x0 :: x1 :: x2 :: x3 :: x4 :: x5 :: x6 :: x7 :: t) = t :=
  rfl

theorem sliceGet_header (x0 x1 x2 x3 x4 x5 x6 x7 : Nat)
    (p q rest : List Nat) :
    sliceGet (x0 :: x1 :: x2 :: x3 :: x4 :: x5 :: x6 :: x7 ::
      (p ++ (q ++ rest))) 8 (8 + p.length) = some p := by
  simp only [sliceGet]
  rw [if_pos]
  · rw [drop_eight]
    rw [show 8 + p.length - 8 = p.length by omega]
    rw [List.take_left]
  · refine ⟨by omega, ?_⟩
    simp only [List.length_cons, List.length_append]
    omega

theorem sliceFrom_past_entry (x0 x1 x2 x3 x4 x5 x6 x7 : Nat)
    (p q rest : List Nat) :
    sliceFrom (x0 :: x1 :: x2 :: x3 :: x4 :: x5 :: x6 :: x7 ::
      (p ++ (q ++ rest))) (8 + p.length + q.length) = some rest := by
  simp only [sliceFrom]
  rw [if_pos]
  · rw [show 8 + p.length + q.length = 8 + (p.length + q.length) by omega]
    rw [← List.drop_drop (p.length + q.length) 8]
    rw [drop_eight]
    rw [← List.append_assoc]
    rw [show p.length + q.length = (p ++ q).length by simp]
    rw [List.drop_left]
  · simp only [List.length_cons, List.length_append]
    omega

theorem nextStep_encode (e : WireEntry) (he : e.WellFormed)
    (rest : List Nat) :
    nextStep (encodeEntry e ++ rest) =
      (some (.ok ⟨e.revision, e.certificate_type, e.payload⟩), rest) := by
  obtain ⟨hrev, hty, hsz, hpadlen⟩ := he
  simp only [encodeEntry, u32_to_le, u16_to_le, List.cons_append,
    List.nil_append, List.append_assoc]
  simp only [nextStep]
  rw [u32_to_le_round _ hsz, u16_to_le_round _ hrev, u16_to_le_round _ hty]
  rw [if_neg (by omega)]
  rw [if_neg (by simp only [USIZE_BOUND]; omega)]
  rw [show 8 + (8 + e.payload.length - 8) = 8 + e.payload.length by omega]
  rw [sliceGet_header]
  rw [align_up_to_8_eq_pad (8 + e.payload.length)
    (by simp only [USIZE_BOUND]; omega)]
  simp only []
  rw [← hpadlen]
  rw [sliceFrom_past_entry]

/-! ### Claim theorems -/

/-- C2: Round-trip — encoding any list of entries per the wire format
(arbitrary `u16` revision and type, arbitrary payload length whose total
size fits the `u32` size field, 0-7 padding bytes to the next 8-byte
boundary) into one table and iterating over that table yields exactly
one `Ok` item per entry, carrying the original revision, certificate
type and payload bytes, in the original order. -/
theorem c2_encode_iterate_roundtrip (es : List WireEntry)
    (h : ∀ e ∈ es, e.WellFormed) :
    runIterItems (encodeTable es) =
      es.map (fun e =>
        (Except.ok ⟨e.revision, e.certificate_type, e.payload⟩ :
          CertItem)) := by
  induction es with
  | nil => rfl
  | cons e es ih =>
    have hstep := nextStep_encode e (h e (List.mem_cons_self e es))
      (encodeTable es)
    have htl : ∀ x ∈ es, x.WellFormed :=
      fun x hx => h x (List.mem_cons_of_mem e hx)
    simp only [encodeTable, runIterItems] at ih ⊢
    rw [runIter_some hstep]
    simp only [List.map_cons]
    rw [ih htl]

/-- C2 witness: a concrete two-entry table (one entry with a 3-byte
payload and 5 padding bytes, one with an empty payload and no padding)
round-trips through encoding and iteration. -/
theorem c2_encode_iterate_roundtrip_witness :
    (∀ e ∈ [WireEntry.mk 512 2 [1, 2, 3] [0, 0, 0, 0, 0],
        WireEntry.mk 768 7 [] []], e.WellFormed) ∧
    runIterItems (encodeTable [WireEntry.mk 512 2 [1, 2, 3] [0, 0, 0, 0, 0],
        WireEntry.mk 768 7 [] []]) =
      [Except.ok ⟨512, 2, [1, 2, 3]⟩, Except.ok ⟨768, 7, []⟩] :=
  ⟨by decide,
    c2_encode_iterate_roundtrip
      [WireEntry.mk 512 2 [1, 2, 3] [0, 0, 0, 0, 0],
        WireEntry.mk 768 7 [] []] (by decide)⟩

/-- C7: the alignment helper maps 0 to 0, `1..=8` to 8, `9..=16` to 16,
is idempotent, returns multiples of 8 unchanged, and returns `none`
exactly when padding is needed and adding it would pass the maximum
representable offset. -/
theorem c7_align_up_properties :
    align_up_to_8 0 = some 0 ∧
    (∀ i, 1 ≤ i → i ≤ 8 → align_up_to_8 i = some 8) ∧
    (∀ i, 9 ≤ i → i ≤ 16 → align_up_to_8 i = some 16) ∧
    (∀ v w, align_up_to_8 v = some w → align_up_to_8 w = some w) ∧
    (∀ v, v % 8 = 0 → align_up_to_8 v = some v) ∧
    (∀ v, align_up_to_8 v = none ↔
      (v % 8 ≠ 0 ∧ USIZE_BOUND ≤ v + (8 - v % 8))) := by
  refine ⟨rfl, ?_, ?_, ?_, ?_, ?_⟩
  · intro i h1 h2
    simp only [align_up_to_8, USIZE_BOUND]
    repeat' split
    all_goals first
      | (simp only [Option.some.injEq]; omega)
      | (exfalso; omega)
  · intro i h1 h2
    simp only [align_up_to_8, USIZE_BOUND]
    repeat' split
    all_goals first
      | (simp only [Option.some.injEq]; omega)
      | (exfalso; omega)
  · intro v w h
    have hm := align_up_to_8_mod h
    simp only [align_up_to_8]
    rw [if_pos hm]
  · intro v hv
    simp only [align_up_to_8]
    rw [if_pos hv]
  · intro v
    simp only [align_up_to_8, USIZE_BOUND]
    split
    · rename_i hr
      constructor
      · intro hh
        cases hh
      · intro hh
        exact absurd hr hh.1
    · rename_i hr
      split
      · rename_i hlt
        exact ⟨fun hh => Option.noConfusion hh, fun hh => absurd hlt (by omega)⟩
      · rename_i hge
        exact ⟨fun hh => ⟨hr, by omega⟩, fun hh => rfl⟩

/-- C7 witness: the alignment properties evaluated at concrete points —
5 aligns to 8, 12 aligns to 16, alignment of 5 is idempotent, and 24 is
returned unchanged. -/
theorem c7_align_up_properties_witness :
    (1 ≤ 5 ∧ 5 ≤ 8 ∧ align_up_to_8 5 = some 8) ∧
    (9 ≤ 12 ∧ 12 ≤ 16 ∧ align_up_to_8 12 = some 16) ∧
    align_up_to_8 8 = some 8 ∧
    (24 % 8 = 0 ∧ align_up_to_8 24 = some 24) :=
  ⟨⟨by omega, by omega,
      c7_align_up_properties.2.1 5 (by omega) (by omega)⟩,
    ⟨by omega, by omega,
      c7_align_up_properties.2.2.1 12 (by omega) (by omega)⟩,
    c7_align_up_properties.2.2.2.1 5 8
      (c7_align_up_properties.2.1 5 (by omega) (by omega)),
    ⟨by omega, c7_align_up_properties.2.2.2.2.1 24 (by omega)⟩⟩

/-- C4: from any cursor with at least 8 remaining bytes whose 4-byte
little-endian size field is smaller than 8, the next step emits
`InvalidCertificateSize` carrying that decoded size and clears the
cursor to empty; running from that cursor yields that single error item
and nothing after it, and a step on the cleared cursor produces no
item. -/
theorem c4_small_size_errors_then_ends (a0 a1 a2 a3 b0 b1 c0 c1 : Nat)
    (rest : List Nat) (h : u32_from_le a0 a1 a2 a3 < 8) :
    nextStep (a0 :: a1 :: a2 :: a3 :: b0 :: b1 :: c0 :: c1 :: rest) =
      (some (.error (.InvalidCertificateSize (u32_from_le a0 a1 a2 a3))),
        []) ∧
    runIterItems (a0 :: a1 :: a2 :: a3 :: b0 :: b1 :: c0 :: c1 :: rest) =
      [.error (.InvalidCertificateSize (u32_from_le a0 a1 a2 a3))] ∧
    nextStep [] = (none, []) := by
  have hstep :
      nextStep (a0 :: a1 :: a2 :: a3 :: b0 :: b1 :: c0 :: c1 :: rest) =
        (some (.error
          (.InvalidCertificateSize (u32_from_le a0 a1 a2 a3))), []) := by
    simp only [nextStep]
    rw [if_pos h]
  refine ⟨hstep, ?_, rfl⟩
  simp only [runIterItems]
  rw [runIter_some hstep]
  rfl

/-- C4 witness: the entry header `[4,0,0,0,7,7,7,7]` declares size 4 and
triggers the error, the cleared cursor, and the end of production. -/
theorem c4_small_size_errors_then_ends_witness :
    u32_from_le 4 0 0 0 < 8 ∧
    (nextStep [4, 0, 0, 0, 7, 7, 7, 7] =
      (some (.error (.InvalidCertificateSize (u32_from_le 4 0 0 0))),
        []) ∧
    runIterItems [4, 0, 0, 0, 7, 7, 7, 7] =
      [.error (.InvalidCertificateSize (u32_from_le 4 0 0 0))] ∧
    nextStep [] = (none, [])) :=
  ⟨by decide, c4_small_size_errors_then_ends 4 0 0 0 7 7 7 7 [] (by decide)⟩

/-- C5: when an entry's header and payload decode succeed (size at
least 8, no `checked_add` overflow, payload within the cursor) but
advancing past the entry fails — `align_up_to_8` overflows or the
aligned boundary exceeds the remaining bytes — the step produces no
item at all and leaves the cursor unchanged: production silently ends
without an error, unlike the error-emitting paths. -/
theorem c5_advance_failure_silent_stop (a0 a1 a2 a3 b0 b1 c0 c1 : Nat)
    (rest : List Nat)
    (h8 : 8 ≤ u32_from_le a0 a1 a2 a3)
    (hov : 8 + (u32_from_le a0 a1 a2 a3 - 8) < USIZE_BOUND)
    (hdata : u32_from_le a0 a1 a2 a3 ≤ 8 + rest.length)
    (hadv : align_up_to_8 (u32_from_le a0 a1 a2 a3) = none ∨
      ∃ w, align_up_to_8 (u32_from_le a0 a1 a2 a3) = some w ∧
        8 + rest.length < w) :
    nextStep (a0 :: a1 :: a2 :: a3 :: b0 :: b1 :: c0 :: c1 :: rest) =
      (none, a0 :: a1 :: a2 :: a3 :: b0 :: b1 :: c0 :: c1 :: rest) := by
  simp only [nextStep]
  rw [if_neg (by omega), if_neg (by omega)]
  have hsg : sliceGet
      (a0 :: a1 :: a2 :: a3 :: b0 :: b1 :: c0 :: c1 :: rest) 8
      (8 + (u32_from_le a0 a1 a2 a3 - 8)) =
      some (rest.take (u32_from_le a0 a1 a2 a3 - 8)) := by
    simp only [sliceGet]
    rw [show 8 + (u32_from_le a0 a1 a2 a3 - 8) - 8 =
      u32_from_le a0 a1 a2 a3 - 8 by omega]
    rw [if_pos ⟨by omega, by simp only [List.length_cons]; omega⟩]
    rfl
  rw [hsg]
  simp only []
  rcases hadv with hal | ⟨w, hal, hw⟩
  · rw [hal]
  · rw [hal]
    simp only []
    have hsf : sliceFrom
        (a0 :: a1 :: a2 :: a3 :: b0 :: b1 :: c0 :: c1 :: rest) w =
        none := by
      simp only [sliceFrom]
      rw [if_neg (by simp only [List.length_cons]; omega)]
    rw [hsf]

/-- C5 witness: cursor `[9,0,0,0,0,0,0,0,7,7]` — size field 9, payload
in range, but the 8-byte-aligned boundary 16 exceeds the 10 available
bytes: the step produces nothing and leaves the cursor unchanged. -/
theorem c5_advance_failure_silent_stop_witness :
    8 ≤ u32_from_le 9 0 0 0 ∧
    8 + (u32_from_le 9 0 0 0 - 8) < USIZE_BOUND ∧
    u32_from_le 9 0 0 0 ≤ 8 + ([7, 7] : List Nat).length ∧
    align_up_to_8 (u32_from_le 9 0 0 0) = some 16 ∧
    8 + ([7, 7] : List Nat).length < 16 ∧
    nextStep [9, 0, 0, 0, 0, 0, 0, 0, 7, 7] =
      (none, [9, 0, 0, 0, 0, 0, 0, 0, 7, 7]) :=
  ⟨by decide, by decide, by decide, by decide, by decide,
    c5_advance_failure_silent_stop 9 0 0 0 0 0 0 0 [7, 7]
      (by decide) (by decide) (by decide)
      (Or.inr ⟨16, by decide, by decide⟩)⟩

/-- C8: a table byte range that resolves to the empty slice is accepted
by the constructor (no `InvalidSize`, no `OutOfBounds`) and the
resulting iterator is immediately exhausted, producing zero items. -/
theorem c8_empty_table_accepted (pe : PeImage) (r : Nat × Nat)
    (h1 : pe.certificate_table_range = .ok (some r))
    (h2 : sliceGet pe.data r.1 r.2 = some []) :
    AttributeCertificateIterator.new pe = .ok (some []) ∧
    runIterItems [] = [] := by
  refine ⟨?_, rfl⟩
  simp only [AttributeCertificateIterator.new, h1, h2]
  rfl

/-- C8 witness: the image `[3,4]` with table range `1..1` resolves to
the empty table, construction succeeds, and iteration yields nothing. -/
theorem c8_empty_table_accepted_witness :
    (PeImage.mk [3, 4] (.ok (some (1, 1)))).certificate_table_range =
      .ok (some (1, 1)) ∧
    sliceGet [3, 4] 1 1 = some [] ∧
    (AttributeCertificateIterator.new ⟨[3, 4], .ok (some (1, 1))⟩ =
      .ok (some []) ∧
    runIterItems [] = []) :=
  ⟨rfl, by decide,
    c8_empty_table_accepted ⟨[3, 4], .ok (some (1, 1))⟩ (1, 1) rfl
      (by decide)⟩

/-- C1 counterexample: the 8-byte table `[4,0,0,0,0,0,0,0]` (size field
4) is accepted by the constructor — the error-emitting first step clears
the cursor, so the eager validation sees an empty cursor and passes —
yet iterating the accepted table produces an `Err` item.  This refutes
the claim that construction-time validation rejects every table whose
iteration would yield an error. -/
theorem c1_counterexample_accepted_table_yields_error :
    AttributeCertificateIterator.new
        ⟨[4, 0, 0, 0, 0, 0, 0, 0], .ok (some (0, 8))⟩ =
      .ok (some [4, 0, 0, 0, 0, 0, 0, 0]) ∧
    runIterItems [4, 0, 0, 0, 0, 0, 0, 0] =
      [.error (.InvalidCertificateSize 4)] := by
  exact ⟨rfl, rfl⟩

/-- C1 (amended): every table accepted by the constructor runs to
exhaustion with an empty final cursor (the eager validation enforces
exactly `check_total_size_valid`); acceptance does **not** guarantee the
absence of `Err` items, because an error-emitting step clears the cursor
and therefore also passes the eager check. -/
theorem c1_accepted_table_exhausts_empty (pe : PeImage) (rd : List Nat)
    (h : AttributeCertificateIterator.new pe = .ok (some rd)) :
    (runIter rd).2 = [] := by
  simp only [AttributeCertificateIterator.new] at h
  split at h
  · split at h
    · simp at h
    · split at h
      · rename_i remaining hsg hchk
        simp only [Except.ok.injEq, Option.some.injEq] at h
        subst h
        simpa [check_total_size_valid, List.isEmpty_iff] using hchk
      · simp at h
  · simp at h
  · simp at h

/-- C1 witness (amended claim): the valid one-entry table
`[8,0,0,0,2,0,2,0]` is accepted and its exhaustion leaves an empty
cursor. -/
theorem c1_accepted_table_exhausts_empty_witness :
    AttributeCertificateIterator.new
        ⟨[8, 0, 0, 0, 2, 0, 2, 0], .ok (some (0, 8))⟩ =
      .ok (some [8, 0, 0, 0, 2, 0, 2, 0]) ∧
    (runIter [8, 0, 0, 0, 2, 0, 2, 0]).2 = [] :=
  ⟨rfl,
    c1_accepted_table_exhausts_empty
      ⟨[8, 0, 0, 0, 2, 0, 2, 0], .ok (some (0, 8))⟩
      [8, 0, 0, 0, 2, 0, 2, 0] rfl⟩

/-- C3: with a resolvable table range, the constructor signals
`InvalidSize` exactly when running the iterator over the table bytes to
exhaustion leaves a non-empty cursor; in particular a table one byte
longer than the sum of the aligned entry sizes (here `8 + 1` bytes for
one size-8 entry) is rejected at construction with `InvalidSize`. -/
theorem c3_invalid_size_iff_leftover :
    (∀ (pe : PeImage) (r : Nat × Nat) (rd : List Nat),
        pe.certificate_table_range = .ok (some r) →
        sliceGet pe.data r.1 r.2 = some rd →
        (AttributeCertificateIterator.new pe = .error .InvalidSize ↔
          (runIter rd).2 ≠ [])) ∧
    AttributeCertificateIterator.new
        ⟨[8, 0, 0, 0, 2, 0, 2, 0, 0], .ok (some (0, 9))⟩ =
      .error .InvalidSize := by
  constructor
  · intro pe r rd h1 h2
    simp only [AttributeCertificateIterator.new, h1, h2]
    by_cases hc : check_total_size_valid rd
    · rw [if_pos hc]
      simp only [check_total_size_valid, List.isEmpty_iff] at hc
      exact ⟨fun hcon => Except.noConfusion hcon, fun hne => absurd hc hne⟩
    · rw [if_neg hc]
      simp only [check_total_size_valid, List.isEmpty_iff] at hc
      exact ⟨fun _ => hc, fun _ => rfl⟩
  · rfl

/-- C3 witness: the general characterisation applied to the concrete
9-byte table. -/
theorem c3_invalid_size_iff_leftover_witness :
    (PeImage.mk [8, 0, 0, 0, 2, 0, 2, 0, 0]
        (.ok (some (0, 9)))).certificate_table_range = .ok (some (0, 9)) ∧
    sliceGet [8, 0, 0, 0, 2, 0, 2, 0, 0] 0 9 =
      some [8, 0, 0, 0, 2, 0, 2, 0, 0] ∧
    (AttributeCertificateIterator.new
        ⟨[8, 0, 0, 0, 2, 0, 2, 0, 0], .ok (some (0, 9))⟩ =
      .error .InvalidSize ↔
      (runIter [8, 0, 0, 0, 2, 0, 2, 0, 0]).2 ≠ []) :=
  ⟨rfl, rfl,
    c3_invalid_size_iff_leftover.1
      ⟨[8, 0, 0, 0, 2, 0, 2, 0, 0], .ok (some (0, 9))⟩ (0, 9)
      [8, 0, 0, 0, 2, 0, 2, 0, 0] rfl rfl⟩

/-- C6: `get_authenticode_signature` checks the revision before the
certificate type — any revision other than `0x0200` reports
`InvalidCertificateRevision` regardless of the type field; with the
right revision a type other than `0x0002` reports
`InvalidCertificateType`; and only when both match is the payload
delegated to the parser, whose failure is wrapped as
`InvalidSignature`. -/
theorem c6_revision_checked_before_type {ε σ : Type}
    (from_bytes : List Nat → Except ε σ) (c : AttributeCertificate) :
    (c.revision ≠ WIN_CERT_REVISION_2_0 →
      AttributeCertificate.get_authenticode_signature from_bytes c =
        .error (.InvalidCertificateRevision c.revision)) ∧
    (c.revision = WIN_CERT_REVISION_2_0 →
      c.certificate_type ≠ WIN_CERT_TYPE_PKCS_SIGNED_DATA →
      AttributeCertificate.get_authenticode_signature from_bytes c =
        .error (.InvalidCertificateType c.certificate_type)) ∧
    (c.revision = WIN_CERT_REVISION_2_0 →
      c.certificate_type = WIN_CERT_TYPE_PKCS_SIGNED_DATA →
      AttributeCertificate.get_authenticode_signature from_bytes c =
        (from_bytes c.data).mapError .InvalidSignature) := by
  refine ⟨?_, ?_, ?_⟩
  · intro h1
    simp only [AttributeCertificate.get_authenticode_signature]
    rw [if_pos h1]
  · intro h1 h2
    simp only [AttributeCertificate.get_authenticode_signature]
    rw [if_neg (by simp [h1]), if_pos h2]
  · intro h1 h2
    simp only [AttributeCertificate.get_authenticode_signature]
    rw [if_neg (by simp [h1]), if_neg (by simp [h2])]

/-- C6 witness: with the stub parser — revision `0x0300` with a
mismatched type still reports the revision error; revision `0x0200`
with type 5 reports the type error; and a matching header delegates to
the parser with its error wrapped. -/
theorem c6_revision_checked_before_type_witness :
    ((0x0300 : Nat) ≠ WIN_CERT_REVISION_2_0 ∧
      AttributeCertificate.get_authenticode_signature stubParse
          ⟨0x0300, 5, []⟩ =
        .error (.InvalidCertificateRevision 0x0300)) ∧
    (AttributeCertificate.get_authenticode_signature stubParse
        ⟨0x0200, 5, []⟩ =
      .error (.InvalidCertificateType 5)) ∧
    (AttributeCertificate.get_authenticode_signature stubParse
        ⟨0x0200, 0x0002, []⟩ =
      (stubParse []).mapError .InvalidSignature) :=
  ⟨⟨by decide,
      (c6_revision_checked_before_type stubParse ⟨0x0300, 5, []⟩).1
        (by decide)⟩,
    (c6_revision_checked_before_type stubParse ⟨0x0200, 5, []⟩).2.1
      rfl (by decide),
    (c6_revision_checked_before_type stubParse ⟨0x0200, 0x0002, []⟩).2.2
      rfl rfl⟩

theorem alignUpTo8Checked_eq (v : Nat) :
    alignUpTo8Checked v = some (align_up_to_8 v) := by
  simp only [alignUpTo8Checked, align_up_to_8]
  split
  · rfl
  · rw [if_neg (by omega)]

/-- C9: every step of the iterator is total and panic-free — the
version of `next` in which every slice indexing, `try_into().unwrap()`
and the `unwrap` inside `align_up_to_8` is an explicit `Option` (outer
`none` = panic) agrees with the pure model on every input, however
malformed: no panic path is reachable, all failures are reported as
returned values or end of production, and all reads stay inside the
table slice. -/
theorem c9_next_total_no_panic (rd : List Nat) :
    nextStepChecked rd = some (nextStep rd) := by
  rcases rd with _ | ⟨a0, _ | ⟨a1, _ | ⟨a2, _ | ⟨a3, _ | ⟨b0, _ | ⟨b1,
    _ | ⟨c0, _ | ⟨c1, rest⟩⟩⟩⟩⟩⟩⟩⟩
  any_goals rfl
  have hlen :
      ¬ (a0 :: a1 :: a2 :: a3 :: b0 :: b1 :: c0 :: c1 :: rest).length
        < 8 := by
    simp only [List.length_cons]
    omega
  have hs4 : sliceGet
      (a0 :: a1 :: a2 :: a3 :: b0 :: b1 :: c0 :: c1 :: rest) 0 4 =
      some [a0, a1, a2, a3] := by
    simp only [sliceGet]
    rw [if_pos ⟨by omega, by simp only [List.length_cons]; omega⟩]
    rfl
  have hs46 : sliceGet
      (a0 :: a1 :: a2 :: a3 :: b0 :: b1 :: c0 :: c1 :: rest) 4 6 =
      some [b0, b1] := by
    simp only [sliceGet]
    rw [if_pos ⟨by omega, by simp only [List.length_cons]; omega⟩]
    rfl
  have hs68 : sliceGet
      (a0 :: a1 :: a2 :: a3 :: b0 :: b1 :: c0 :: c1 :: rest) 6 8 =
      some [c0, c1] := by
    simp only [sliceGet]
    rw [if_pos ⟨by omega, by simp only [List.length_cons]; omega⟩]
    rfl
  simp only [nextStepChecked, nextStep]
  rw [if_neg hlen, hs4, hs46, hs68]
  simp only [tryIntoU32, tryIntoU16]
  rw [alignUpTo8Checked_eq]
  by_cases h1 : u32_from_le a0 a1 a2 a3 < 8
  · rw [if_pos h1, if_pos h1]
  · rw [if_neg h1, if_neg h1]
    by_cases h2 : USIZE_BOUND ≤ 8 + (u32_from_le a0 a1 a2 a3 - 8)
    · rw [if_pos h2, if_pos h2]
    · rw [if_neg h2, if_neg h2]
      cases hsg : sliceGet
          (a0 :: a1 :: a2 :: a3 :: b0 :: b1 :: c0 :: c1 :: rest) 8
          (8 + (u32_from_le a0 a1 a2 a3 - 8)) with
      | none => rfl
      | some cd =>
        cases hal : align_up_to_8 (u32_from_le a0 a1 a2 a3) with
        | none => rfl
        | some w =>
          simp only []
          cases hsf : sliceFrom
              (a0 :: a1 :: a2 :: a3 :: b0 :: b1 :: c0 :: c1 :: rest)
              w with
          | none => rfl
          | some rem => rfl

theorem nextStep_eq_of_parts {rd : List Nat} {o : Option CertItem}
    {r2 : List Nat} (h1 : (nextStep rd).1 = o)
    (h2 : (nextStep rd).2 = r2) : nextStep rd = (o, r2) := by
  rw [Prod.ext_iff]
  exact ⟨h1, h2⟩

theorem countP_ok_le_div8 :
    ∀ n, ∀ rd : List Nat, rd.length ≤ n →
      (runIter rd).1.countP Except.isOk ≤ rd.length / 8 := by
  intro n
  induction n using Nat.strong_induction_on with
  | _ n ih =>
    intro rd hle
    rcases nextStep_classify rd with ⟨h1, h2⟩ | ⟨e, h1, h2⟩ |
      ⟨c, w, hw8, hwle, h1, h2⟩
    · rw [runIter_none (nextStep_eq_of_parts h1 h2)]
      simp
    · rw [runIter_some (nextStep_eq_of_parts h1 h2)]
      simp [runIter, runIterFuel, Except.isOk, Except.toBool]
    · have hlen8 : 8 ≤ rd.length := by omega
      rw [runIter_some (nextStep_eq_of_parts h1 h2)]
      have hrec := ih (n - 1) (by omega) (rd.drop w)
        (by rw [List.length_drop]; omega)
      rw [List.length_drop] at hrec
      simp [List.countP_cons, Except.isOk, Except.toBool] at hrec ⊢
      omega

theorem dropLast_all_ok :
    ∀ n, ∀ rd : List Nat, rd.length ≤ n →
      ∀ it ∈ (runIter rd).1.dropLast, it.isOk = true := by
  intro n
  induction n using Nat.strong_induction_on with
  | _ n ih =>
    intro rd hle it hit
    rcases nextStep_classify rd with ⟨h1, h2⟩ | ⟨e, h1, h2⟩ |
      ⟨c, w, hw8, hwle, h1, h2⟩
    · rw [runIter_none (nextStep_eq_of_parts h1 h2)] at hit
      simp at hit
    · rw [runIter_some (nextStep_eq_of_parts h1 h2)] at hit
      simp [runIter, runIterFuel] at hit
    · have hlen8 : 8 ≤ rd.length := by omega
      rw [runIter_some (nextStep_eq_of_parts h1 h2)] at hit
      cases hys : (runIter (rd.drop w)).1 with
      | nil =>
        rw [hys] at hit
        simp at hit
      | cons y ys =>
        rw [hys] at hit
        simp only [List.dropLast, List.mem_cons] at hit
        rcases hit with hit | hit
        · rw [hit]
          rfl
        · exact ih (n - 1) (by omega) (rd.drop w)
            (by rw [List.length_drop]; omega) it (by rw [hys]; exact hit)

/-- C10: iteration terminates on every input — a step that emits a
decoded entry shrinks the cursor by at least 8 bytes, an error-emitting
step clears the cursor, so a table of length `L` yields at most `L / 8`
successful entries, and at most one error item, which can only be the
last item produced. -/
theorem c10_termination_bounds :
    (∀ (rd rd' : List Nat) (c : AttributeCertificate),
        nextStep rd = (some (.ok c), rd') → rd'.length + 8 ≤ rd.length) ∧
    (∀ (rd rd' : List Nat) (e : AttributeCertificateError),
        nextStep rd = (some (.error e), rd') → rd' = []) ∧
    (∀ rd : List Nat,
        (runIterItems rd).countP Except.isOk ≤ rd.length / 8) ∧
    (∀ rd : List Nat, ∀ it ∈ (runIterItems rd).dropLast,
        it.isOk = true) := by
  refine ⟨?_, ?_, ?_, ?_⟩
  · intro rd rd' c h
    exact nextStep_ok_shrinks h
  · intro rd rd' e h
    exact nextStep_error_clears h
  · intro rd
    exact countP_ok_le_div8 rd.length rd (Nat.le_refl _)
  · intro rd it hit
    exact dropLast_all_ok rd.length rd (Nat.le_refl _) it hit

/-- C10 witness: on the 17-byte table `[8,0,0,0,2,0,2,0] ++
[3,0,0,0,5,5,5,5,9]` the first step emits one entry and drops 8 bytes,
the second step errors and clears the cursor, and the item bounds hold
concretely. -/
theorem c10_termination_bounds_witness :
    (nextStep [8, 0, 0, 0, 2, 0, 2, 0, 3, 0, 0, 0, 5, 5, 5, 5, 9] =
      (some (.ok ⟨2, 2, []⟩), [3, 0, 0, 0, 5, 5, 5, 5, 9]) ∧
      ([3, 0, 0, 0, 5, 5, 5, 5, 9] : List Nat).length + 8 ≤
        ([8, 0, 0, 0, 2, 0, 2, 0, 3, 0, 0, 0, 5, 5, 5, 5, 9] :
          List Nat).length) ∧
    (nextStep [3, 0, 0, 0, 5, 5, 5, 5, 9] =
      (some (.error (.InvalidCertificateSize 3)), []) ∧
      ([] : List Nat) = []) ∧
    (runIterItems [8, 0, 0, 0, 2, 0, 2, 0, 3, 0, 0, 0, 5, 5, 5, 5, 9]
        |>.countP Except.isOk) ≤
      ([8, 0, 0, 0, 2, 0, 2, 0, 3, 0, 0, 0, 5, 5, 5, 5, 9] :
        List Nat).length / 8 ∧
    (∀ it ∈ (runIterItems
        [8, 0, 0, 0, 2, 0, 2, 0, 3, 0, 0, 0, 5, 5, 5, 5, 9]).dropLast,
      it.isOk = true) :=
  ⟨⟨rfl, c10_termination_bounds.1
      [8, 0, 0, 0, 2, 0, 2, 0, 3, 0, 0, 0, 5, 5, 5, 5, 9]
      [3, 0, 0, 0, 5, 5, 5, 5, 9] ⟨2, 2, []⟩ rfl⟩,
    ⟨rfl, c10_termination_bounds.2.1 [3, 0, 0, 0, 5, 5, 5, 5, 9] []
      (.InvalidCertificateSize 3) rfl⟩,
    c10_termination_bounds.2.2.1
      [8, 0, 0, 0, 2, 0, 2, 0, 3, 0, 0, 0, 5, 5, 5, 5, 9],
    c10_termination_bounds.2.2.2
      [8, 0, 0, 0, 2, 0, 2, 0, 3, 0, 0, 0, 5, 5, 5, 5, 9]⟩

end WinCert